import Mathlib

/-!
Verification development for the SuperBatchVideoCompressor repository.

The definitions below are a shallow embedding of the Python sources:
`src/src/scheduler/advanced.py` (the advanced multi-encoder scheduler),
`src/src/core/encoder.py` (target bitrate and command builders),
`src/src/config/defaults.py` (constants), and
`src/src/utils/process.py` (the process registry).

Machine integers are modelled as `Nat`/`Int`; Python dicts keyed by enum
values are modelled as functions or association lists; fallible values as
`Option`.  Stateful code is modelled by explicit state passing.
-/

namespace SBVC

/-- The `EncoderType` enum from `src/src/scheduler/advanced.py`. -/
inductive EncoderType where
  | nvenc
  | qsv
  | videotoolbox
  | cpu
deriving DecidableEq, Repr

/-- The `.value` string of each `EncoderType` member. -/
def EncoderType.value : EncoderType → String
  | .nvenc => "nvenc"
  | .qsv => "qsv"
  | .videotoolbox => "videotoolbox"
  | .cpu => "cpu"

/-- The `DecodeMode` enum from `src/src/scheduler/advanced.py`. -/
inductive DecodeMode where
  | hw_decode
  | sw_decode_limited
  | sw_decode
deriving DecidableEq, Repr

/-- The `.value` string of each `DecodeMode` member. -/
def DecodeMode.value : DecodeMode → String
  | .hw_decode => "hw_decode"
  | .sw_decode_limited => "sw_decode_limited"
  | .sw_decode => "sw_decode"

/-! ## Target bitrate (`src/src/core/encoder.py: calculate_target_bitrate`)

Constants from `src/src/config/defaults.py`: `MIN_BITRATE = 500000`,
`BITRATE_RATIO = 0.5`, and the `MAX_BITRATE_BY_RESOLUTION` table. -/

/-- Constant `MIN_BITRATE` from `src/src/config/defaults.py`. -/
def MIN_BITRATE : Nat := 500000

/-- Table `MAX_BITRATE_BY_RESOLUTION` from `src/src/config/defaults.py`,
as an association list (dict with `Nat` keys and values). -/
def MAX_BITRATE_BY_RESOLUTION : List (Nat × Nat) :=
  [(720, 1500000), (1080, 3000000), (1440, 5000000), (2160, 9000000)]

/-- Insertion step of the Python `sorted` builtin on a key list (stable, ascending). -/
def insertSorted (x : Nat) : List Nat → List Nat
  | [] => [x]
  | y :: ys => if x ≤ y then x :: y :: ys else y :: insertSorted x ys

/-- Model of Python `sorted(keys)` on a list of `Nat` keys. -/
def sortKeys (l : List Nat) : List Nat :=
  l.foldr insertSorted []

/-- Dict lookup `d[k]` for the association-list model of a dict whose key is
known to be present (`calculate_target_bitrate` only looks up keys drawn
from the dict itself); the default `0` is never reached on such calls. -/
def dictGet (table : List (Nat × Nat)) (k : Nat) : Nat :=
  match table.find? (fun p => p.1 = k) with
  | some p => p.2
  | none => 0

/-- Model of Python `max(d.keys())` over the association-list model (the dict is
non-empty whenever the source calls this). -/
def maxKey (table : List (Nat × Nat)) : Nat :=
  (table.map Prod.fst).foldr max 0

/-- Function `calculate_target_bitrate` from `src/src/core/encoder.py`.

`int(original_bitrate * BITRATE_RATIO)` with `BITRATE_RATIO = 0.5` is
`original_bitrate / 2` on the nonnegative integer bitrates ffprobe reports:
halving a binary float that holds an exact integer is exact, and `int`
truncates toward zero. -/
def calculate_target_bitrate (original_bitrate width height : Nat)
    (force_bitrate : Bool) (forced_value : Nat)
    (max_bitrate_by_resolution : List (Nat × Nat)) : Nat :=
  if force_bitrate then forced_value
  else
    let short_side := min width height
    let cap0 : Option Nat :=
      ((sortKeys (max_bitrate_by_resolution.map Prod.fst)).find?
        (fun k => short_side ≤ k)).map (dictGet max_bitrate_by_resolution)
    let cap : Nat :=
      match cap0 with
      | some v => v
      | none =>
        if max_bitrate_by_resolution = [] then 9000000
        else dictGet max_bitrate_by_resolution (maxKey max_bitrate_by_resolution)
    let new_bitrate := original_bitrate / 2
    max MIN_BITRATE (min new_bitrate cap)

/-- The bucket cap described by the spec for the default table: the value of
the smallest short-side threshold bucket covering `min w h`, and the maximum
value of the maximum bucket when the short side exceeds every threshold. -/
def specCap (width height : Nat) : Nat :=
  if min width height ≤ 720 then 1500000
  else if min width height ≤ 1080 then 3000000
  else if min width height ≤ 1440 then 5000000
  else if min width height ≤ 2160 then 9000000
  else 9000000

/-! ## Encoder slot (`src/src/scheduler/advanced.py: EncoderSlot`)

The mutable fields of an `EncoderSlot` together with its counting semaphore
(`threading.Semaphore(max_concurrent)`), as one explicit state.  Counters are
Python ints, so `current_tasks` is modelled as `Int`; the semaphore counter
is a `Nat` (Python semaphores never go below zero). -/

structure SlotState where
  max_concurrent : Nat
  sem : Nat
  current_tasks : Int
  total_completed : Nat
  total_failed : Nat
deriving DecidableEq, Repr

/-- Constructor `EncoderSlot.__init__`: semaphore holds `max_concurrent` permits, all
counters start at zero. -/
def SlotState.init (max_concurrent : Nat) : SlotState :=
  { max_concurrent := max_concurrent, sem := max_concurrent,
    current_tasks := 0, total_completed := 0, total_failed := 0 }

/-- One call observed by an `EncoderSlot`: an `acquire` attempt, or a
`release(success)` call. -/
inductive SlotOp where
  | acquire
  | release (success : Bool)
deriving DecidableEq, Repr

/-- Methods `EncoderSlot.acquire` / `EncoderSlot.release` as a state transition.
`acquire` obtains the slot exactly when the semaphore has a free permit
(a blocked or timed-out `acquire` leaves the state unchanged); `release`
decrements `current_tasks`, bumps the matching outcome counter and returns
the permit. -/
def SlotState.step (s : SlotState) : SlotOp → SlotState
  | .acquire =>
    if 0 < s.sem then
      { s with sem := s.sem - 1, current_tasks := s.current_tasks + 1 }
    else s
  | .release success =>
    if success then
      { s with current_tasks := s.current_tasks - 1,
               total_completed := s.total_completed + 1, sem := s.sem + 1 }
    else
      { s with current_tasks := s.current_tasks - 1,
               total_failed := s.total_failed + 1, sem := s.sem + 1 }

/-- Run a sequence of slot calls from the freshly constructed slot state. -/
def SlotState.run (max_concurrent : Nat) (ops : List SlotOp) : SlotState :=
  ops.foldl SlotState.step (SlotState.init max_concurrent)

/-- Number of `release` calls in a call sequence. -/
def releaseCount (ops : List SlotOp) : Nat :=
  (ops.filter (fun o => match o with | .release _ => true | _ => false)).length

/-- Helper for `okAcquireCount`: replay the calls from state `s`, counting
the `acquire` calls that find a free permit. -/
def okAcquiresFrom (s : SlotState) : List SlotOp → Nat
  | [] => 0
  | op :: ops =>
    (match op with
     | .acquire => if 0 < s.sem then 1 else 0
     | .release _ => 0) + okAcquiresFrom (s.step op) ops

/-- Number of `acquire` calls that actually obtained the slot, replaying the
semaphore semantics from the freshly constructed slot state. -/
def okAcquireCount (max_concurrent : Nat) (ops : List SlotOp) : Nat :=
  okAcquiresFrom (SlotState.init max_concurrent) ops

/-- Method `EncoderSlot.get_load`: `current_tasks / max_concurrent` when
`max_concurrent > 0`, else `1.0`.  Python float division is modelled in `ℚ`. -/
def SlotState.get_load (s : SlotState) : ℚ :=
  if 0 < s.max_concurrent then (s.current_tasks : ℚ) / (s.max_concurrent : ℚ)
  else 1

/-! ## Process registry (`src/src/utils/process.py`) -/

/-- A registered child-process handle (`subprocess.Popen`), with the state
the registry logic observes: whether `poll()` still reports it running,
whether it would exit within the 3 s grace window once terminated, and which
signals it has received. -/
structure ProcState where
  pid : Nat
  running : Bool
  exitsOnTerm : Bool
  termSent : Bool
  killed : Bool
deriving DecidableEq, Repr

/-- The module-level registry state: the `_ffmpeg_processes` set (modelled as
the list of registered handles) and the `_shutdown_requested` flag. -/
structure RegistryState where
  procs : List ProcState
  shutdown_requested : Bool
deriving DecidableEq, Repr

/-- Effect of `terminate_all_ffmpeg` on one snapshotted handle: a running
process gets `terminate()`; in the second pass a process still running either
exits within the 3 s `wait` (when `exitsOnTerm`) or is force-`kill()`ed. -/
def termStep (p : ProcState) : ProcState :=
  let p1 := if p.running then { p with termSent := true } else p
  if p1.running then
    if p1.exitsOnTerm then { p1 with running := false }
    else { p1 with running := false, killed := true }
  else p1

/-- Function `terminate_all_ffmpeg` from `src/src/utils/process.py`: sets
`_shutdown_requested`, snapshots the registered handles, sends `terminate()`
to every running one, waits up to 3 s each and kills survivors.  The function
never removes handles from `_ffmpeg_processes` (removal happens only in
`unregister_process`), so the registry keeps the same handles. -/
def terminate_all_ffmpeg (r : RegistryState) : RegistryState :=
  let r1 : RegistryState := { r with shutdown_requested := true }
  let processes := r1.procs
  { r1 with procs := processes.map termStep }

/-! ## Advanced scheduler (`src/src/scheduler/advanced.py: AdvancedScheduler`)

The per-task attempt loop of `AdvancedScheduler.schedule_task` is embedded
for a single task running with no concurrent tasks: the global semaphore and
every encoder slot are free, so `total_semaphore.acquire` and
`slot.acquire(blocking=True, timeout=5)` succeed (each configured slot is
assumed to have `max_concurrent ≥ 1`; all defaults do), and every slot has load `0`, so the stable Python `available.sort(key=load)` keeps the
enabled-priority order and `_select_encoder` picks the first filtered
encoder. -/

/-- The `TaskResult` dataclass from `src/src/scheduler/advanced.py`.  Its fields
are exactly `success`, `filepath`, `encoder_used`, `decode_mode`, `error`,
`stats` and `retry_history`; the `stats` dict is modelled as an association
list. -/
structure TaskResult where
  success : Bool
  filepath : String := ""
  encoder_used : Option EncoderType := none
  decode_mode : Option DecodeMode := none
  error : Option String := none
  stats : List (String × String) := []
  retry_history : List String := []
deriving DecidableEq, Repr

/-- A `Set[DecodeMode]` value (Python set of the three decode modes). -/
structure ModeSet where
  hw : Bool := false
  swl : Bool := false
  sw : Bool := false
deriving DecidableEq, Repr

/-- Size (`len`) of the mode set. -/
def ModeSet.size (m : ModeSet) : Nat :=
  (cond m.hw 1 0) + (cond m.swl 1 0) + (cond m.sw 1 0)

/-- Insertion (`set.add`) for a `Set[DecodeMode]`. -/
def ModeSet.insert (m : ModeSet) : DecodeMode → ModeSet
  | .hw_decode => { m with hw := true }
  | .sw_decode_limited => { m with swl := true }
  | .sw_decode => { m with sw := true }

/-- The set holding all three decode modes (used to state invariants). -/
def ModeSet.full : ModeSet := { hw := true, swl := true, sw := true }

/-- The `TaskState` dataclass from `src/src/scheduler/advanced.py`.
`tried_encoders` is the Python set modelled as an insertion-ordered
duplicate-free list; `tried_modes` is the dict
`Dict[EncoderType, Set[DecodeMode]]` modelled as a total function whose
value on absent keys is the empty set (matching `.get(e, set())`).  The
unused bookkeeping fields `current_encoder` / `current_decode_mode` do not
influence control flow and are omitted. -/
structure TaskState where
  filepath : String
  task_id : Nat
  tried_encoders : List EncoderType
  tried_modes : EncoderType → ModeSet
  errors : List String
  retry_count : Nat
  max_retries : Nat

/-- A freshly created `TaskState(filepath=..., task_id=...)` with the
dataclass defaults, in particular `max_retries = 10`. -/
def TaskState.init (fp : String) (id : Nat) : TaskState :=
  { filepath := fp, task_id := id, tried_encoders := [],
    tried_modes := fun _ => {}, errors := [], retry_count := 0,
    max_retries := 10 }

/-- Insertion (`set.add`) on the `tried_encoders` set. -/
def markTried (l : List EncoderType) (e : EncoderType) : List EncoderType :=
  if e ∈ l then l else l ++ [e]

/-- Method `AdvancedScheduler._select_encoder`, in the single-task sequential case
described above: every slot accepts and has load `0`, so the stable sort
keeps the priority order and the head of the filtered `available` list is
chosen; when `available` is empty, the CPU fallback applies if enabled and
not yet tried. -/
def selectEncoder (enabled : List EncoderType) (cpu_fallback : Bool)
    (ts : TaskState) : Option EncoderType :=
  let available := enabled.filter fun e =>
    ! (decide (e ∈ ts.tried_encoders) && decide (3 ≤ (ts.tried_modes e).size))
  match available with
  | e :: _ => some e
  | [] =>
    if cpu_fallback && ! decide (EncoderType.cpu ∈ ts.tried_encoders) then
      some EncoderType.cpu
    else none

/-- Method `AdvancedScheduler._get_next_decode_mode`: CPU gets only the two
software modes; hardware encoders walk HW → SW-limited → SW.  Note that the
source codec is not consulted. -/
def nextDecodeMode (e : EncoderType) (ts : TaskState) : Option DecodeMode :=
  let tried := ts.tried_modes e
  if e = EncoderType.cpu then
    if tried.swl = false then some DecodeMode.sw_decode_limited
    else if tried.sw = false then some DecodeMode.sw_decode
    else none
  else
    if tried.hw = false then some DecodeMode.hw_decode
    else if tried.swl = false then some DecodeMode.sw_decode_limited
    else if tried.sw = false then some DecodeMode.sw_decode
    else none

/-- What one call of the supplied `encode_func` does: return a `TaskResult`,
or raise an exception rendered as `str(e)`. -/
inductive EncodeOutcome where
  | ret (r : TaskResult)
  | exc (msg : String)

/-- Whether the outcome is a successful return. -/
def outcomeSucceeds : EncodeOutcome → Bool
  | .ret r => r.success
  | .exc _ => false

/-- Python `str` of an `Optional[str]` as interpolated into an f-string. -/
def pyStr : Option String → String
  | some s => s
  | none => "None"

/-- The `retry_info` label `f"{encoder.value}:{decode_mode.value}"`. -/
def retryInfo (e : EncoderType) (m : DecodeMode) : String :=
  e.value ++ ":" ++ m.value

/-- Slice `errors[-3:]` — the last three recorded error strings. -/
def lastThree (l : List String) : List String :=
  l.drop (l.length - 3)

/-- The terminal `TaskResult` built when the attempt loop ends without a
success (`所有编码方式均失败` = "all encode methods failed"). -/
def exhaustResult (ts : TaskState) (hist : List (EncoderType × DecodeMode)) :
    TaskResult :=
  { success := false, filepath := ts.filepath,
    error := some ("所有编码方式均失败: "
      ++ String.intercalate "; " (lastThree ts.errors)),
    retry_history := hist.map (fun p => retryInfo p.1 p.2) }

/-- Semaphore events emitted by `schedule_task`, used to state the locking
discipline. -/
inductive SchedEvent where
  | acquireGlobal
  | acquireSlot (e : EncoderType)
  | releaseSlot (e : EncoderType) (success : Bool)
  | releaseGlobal
deriving DecidableEq, Repr

/-- Everything the attempt loop produces: the returned `TaskResult`, the
final `TaskState`, the attempt history as (encoder, decode-mode) pairs
(`retry_history` is its `retryInfo` image), and the semaphore event trace. -/
structure LoopOut where
  result : TaskResult
  finalState : TaskState
  hist : List (EncoderType × DecodeMode)
  events : List SchedEvent

/-- The `while task_state.retry_count < task_state.max_retries` attempt loop
of `AdvancedScheduler.schedule_task`.  Every iteration that loops again
increments `retry_count` by exactly one, so the loop is driven by the fuel
`max_retries - retry_count` (the caller passes `max_retries` with
`retry_count = 0`); fuel `0` is exactly the loop condition turning false.
The branches mirror the source: no encoder available (sleep-and-retry up to
`retry_count < 3`, else break), encoder exhausted (mark it tried and
continue), and an attempt — acquire the slot, record the pair, run
`encode_func`, and on success return the result with `retry_history`,
`encoder_used` and `decode_mode` filled in, on failure or exception record
the error and continue. -/
def schedLoop (oracle : EncoderType → DecodeMode → EncodeOutcome)
    (enabled : List EncoderType) (cpu_fallback : Bool) :
    Nat → TaskState → List (EncoderType × DecodeMode) → List SchedEvent →
    LoopOut
  | 0, ts, hist, evs => ⟨exhaustResult ts hist, ts, hist, evs⟩
  | fuel+1, ts, hist, evs =>
    match selectEncoder enabled cpu_fallback ts with
    | none =>
      if ts.retry_count < 3 then
        schedLoop oracle enabled cpu_fallback fuel
          { ts with retry_count := ts.retry_count + 1 } hist evs
      else ⟨exhaustResult ts hist, ts, hist, evs⟩
    | some e =>
      match nextDecodeMode e ts with
      | none =>
        schedLoop oracle enabled cpu_fallback fuel
          { ts with tried_encoders := markTried ts.tried_encoders e,
                    retry_count := ts.retry_count + 1 } hist evs
      | some m =>
        let ts1 : TaskState :=
          { ts with
              tried_modes := fun x =>
                if x = e then (ts.tried_modes e).insert m
                else ts.tried_modes x }
        let hist1 := hist ++ [(e, m)]
        let evs1 := evs ++ [SchedEvent.acquireSlot e]
        match oracle e m with
        | .ret r =>
          if r.success then
            ⟨{ r with
                retry_history := hist1.map (fun p => retryInfo p.1 p.2),
                encoder_used := some e, decode_mode := some m },
              ts1, hist1, evs1 ++ [SchedEvent.releaseSlot e true]⟩
          else
            schedLoop oracle enabled cpu_fallback fuel
              { ts1 with
                  errors := ts1.errors
                    ++ [retryInfo e m ++ ": " ++ pyStr r.error],
                  retry_count := ts1.retry_count + 1 }
              hist1 (evs1 ++ [SchedEvent.releaseSlot e false])
        | .exc s =>
          schedLoop oracle enabled cpu_fallback fuel
            { ts1 with
                errors := ts1.errors ++ [retryInfo e m ++ ": " ++ s],
                retry_count := ts1.retry_count + 1 }
            hist1 (evs1 ++ [SchedEvent.releaseSlot e false])

/-- Method `AdvancedScheduler.schedule_task` for one task in the sequential case:
the global permit is acquired before the loop and released in the `finally`
block after it.  The early returns for a shut-down scheduler or a global
acquire timeout do not arise here. -/
def schedule_task (oracle : EncoderType → DecodeMode → EncodeOutcome)
    (enabled : List EncoderType) (cpu_fallback : Bool)
    (filepath : String) (task_id : Nat) : LoopOut :=
  let out := schedLoop oracle enabled cpu_fallback 10
    (TaskState.init filepath task_id) [] []
  { out with
      events := SchedEvent.acquireGlobal :: out.events
        ++ [SchedEvent.releaseGlobal] }

/-- Modelled from the spec: the fixed candidate order the claims describe
for the hardware encoders — for each enabled hardware encoder in priority
order, HW decode, then limited software decode, then software decode. -/
def hwTriples : List EncoderType → List (EncoderType × DecodeMode)
  | [] => []
  | e :: es =>
    (e, DecodeMode.hw_decode) :: (e, DecodeMode.sw_decode_limited)
      :: (e, DecodeMode.sw_decode) :: hwTriples es

/-- Modelled from the spec: the CPU tail of the candidate order. -/
def cpuPairs : List (EncoderType × DecodeMode) :=
  [(EncoderType.cpu, DecodeMode.sw_decode_limited),
   (EncoderType.cpu, DecodeMode.sw_decode)]

/-- Modelled from the spec: the full claimed enumeration order — hardware
encoders first, then the CPU pairs when CPU fallback is enabled. -/
def specOrder (enabled : List EncoderType) (cpu_fallback : Bool) :
    List (EncoderType × DecodeMode) :=
  hwTriples enabled ++ (if cpu_fallback then cpuPairs else [])

/-! ## Command builder (`src/src/core/encoder.py: build_single_encoder_commands`) -/

/-- One entry of the returned command list: `{"name": str, "cmd": list}`. -/
structure Command where
  name : String
  cmd : List String
deriving DecidableEq, Repr

/-- Constant `AUDIO_BITRATE` from `src/src/config/defaults.py`. -/
def AUDIO_BITRATE : String := "128k"

/-- One entry of the `HW_ENCODERS` dict from `src/src/config/defaults.py`:
the per-output-codec encoder names plus the `hwaccel` keys. -/
structure HwConfig where
  hevc : Option String
  avc : Option String
  av1 : Option String
  hwaccel : Option String
  hwaccel_output_format : Option String

/-- Table `HW_ENCODERS` from `src/src/config/defaults.py`, keyed by the
`hw_accel` string; `.get` on an unknown key yields the empty dict, modelled
as `none`. -/
def HW_ENCODERS : String → Option HwConfig
  | "nvenc" =>
    some { hevc := some "hevc_nvenc", avc := some "h264_nvenc",
           av1 := some "av1_nvenc", hwaccel := some "cuda",
           hwaccel_output_format := some "cuda" }
  | "videotoolbox" =>
    some { hevc := some "hevc_videotoolbox", avc := some "h264_videotoolbox",
           av1 := none, hwaccel := some "videotoolbox",
           hwaccel_output_format := none }
  | "qsv" =>
    some { hevc := some "hevc_qsv", avc := some "h264_qsv",
           av1 := some "av1_qsv", hwaccel := some "qsv",
           hwaccel_output_format := some "qsv" }
  | _ => none

/-- Lookup `hw_config.get(output_codec)` on a `HW_ENCODERS` entry (`none` stands
for the empty dict obtained from an unknown `hw_accel`). -/
def hwEncoderFor (cfg : Option HwConfig) (output_codec : String) :
    Option String :=
  match cfg with
  | none => none
  | some c =>
    if output_codec = "hevc" then c.hevc
    else if output_codec = "avc" then c.avc
    else if output_codec = "av1" then c.av1
    else none

/-- Lookup `SW_ENCODERS.get(output_codec, "libx264")` from
`src/src/config/defaults.py`. -/
def swEncoderFor (output_codec : String) : String :=
  if output_codec = "hevc" then "libx265"
  else if output_codec = "avc" then "libx264"
  else if output_codec = "av1" then "libsvtav1"
  else "libx264"

/-- The local `supported_hw_decode_codecs` list in
`build_single_encoder_commands` (the same flat list serves every hardware
encoder there). -/
def supported_hw_decode_codecs : List String :=
  ["h264", "hevc", "av1", "vp9", "mpeg2video"]

/-- The `codec_names` friendly-name dict (falling back to
`output_codec.upper()`). -/
def codecDisplay (output_codec : String) : String :=
  if output_codec = "hevc" then "HEVC/H.265"
  else if output_codec = "avc" then "AVC/H.264"
  else if output_codec = "av1" then "AV1"
  else output_codec.toUpper

/-- The `hw_names` friendly-name dict of `build_single_encoder_commands`
(falling back to the raw `hw_accel` string). -/
def hwDisplay (hw_accel : String) : String :=
  if hw_accel = "nvenc" then "NVIDIA NVENC"
  else if hw_accel = "videotoolbox" then "Apple VideoToolbox"
  else if hw_accel = "qsv" then "Intel QSV"
  else if hw_accel = "none" then "CPU"
  else hw_accel

/-- The CPU/software branch of `build_single_encoder_commands`
(`hw_accel == "none"`): the fps-limited software command (when enabled)
followed by the unlimited one. -/
def buildSingleCpuCommands (filepath temp_filename : String) (bitrate : Nat)
    (output_codec : String) (limit_fps_software_encode : Bool)
    (max_fps : Nat) : List Command :=
  let sw_encoder := swEncoderFor output_codec
  let encoder_params : List String :=
    if sw_encoder = "libx265" ∨ sw_encoder = "libx264" then
      ["-preset", "medium"]
    else if sw_encoder = "libsvtav1" then ["-preset", "6"]
    else []
  let tailArgs := ["-b:v", toString bitrate, "-c:a", "aac", "-b:a",
    AUDIO_BITRATE, temp_filename]
  let limited : List Command :=
    if limit_fps_software_encode then
      [{ name := hwDisplay "none" ++ " (" ++ sw_encoder ++ ", 限"
            ++ toString max_fps ++ "fps)",
         cmd := ["ffmpeg", "-y", "-hide_banner", "-i", filepath,
            "-vf", "fps=" ++ toString max_fps, "-c:v", sw_encoder]
            ++ encoder_params ++ tailArgs }]
    else []
  limited ++
    [{ name := hwDisplay "none" ++ " (" ++ sw_encoder ++ ")",
       cmd := ["ffmpeg", "-y", "-hide_banner", "-i", filepath,
          "-c:v", sw_encoder] ++ encoder_params ++ tailArgs }]

/-- Function `build_single_encoder_commands` from `src/src/core/encoder.py`.  The
`hw_accel == "none"` case and the `not hw_encoder` recursive call (which
immediately lands in the `"none"` case with the same arguments) both go
through `buildSingleCpuCommands`.  For a hardware encoder the list is:
the HW-decode command only when `source_codec` is in
`supported_hw_decode_codecs`, then the fps-limited software-decode command
(when `limit_fps_software_decode`), then the unlimited software-decode
command. -/
def build_single_encoder_commands (filepath temp_filename : String)
    (bitrate : Nat) (source_codec hw_accel output_codec : String)
    (limit_fps_software_decode limit_fps_software_encode : Bool)
    (max_fps : Nat) : List Command :=
  if hw_accel = "none" then
    buildSingleCpuCommands filepath temp_filename bitrate output_codec
      limit_fps_software_encode max_fps
  else
    let hw_config := HW_ENCODERS hw_accel
    match hwEncoderFor hw_config output_codec with
    | none =>
      buildSingleCpuCommands filepath temp_filename bitrate output_codec
        limit_fps_software_encode max_fps
    | some hw_encoder =>
      let hwaccel := (hw_config.map HwConfig.hwaccel).join
      let hwaccel_output_format :=
        (hw_config.map HwConfig.hwaccel_output_format).join
      let display := hwDisplay hw_accel
      let cdisp := codecDisplay output_codec
      let tailArgs := ["-c:v", hw_encoder, "-b:v", toString bitrate,
        "-c:a", "aac", "-b:a", AUDIO_BITRATE, temp_filename]
      let hwCmd : List Command :=
        if decide (source_codec ∈ supported_hw_decode_codecs)
            && hwaccel.isSome then
          let accelArgs :=
            match hwaccel, hwaccel_output_format with
            | some a, some f =>
              ["-hwaccel", a, "-hwaccel_output_format", f]
            | some a, none => ["-hwaccel", a]
            | none, _ => []
          [{ name := display ++ " (" ++ cdisp ++ ", 硬解+硬编)",
             cmd := ["ffmpeg", "-y", "-hide_banner"] ++ accelArgs
                ++ ["-i", filepath] ++ tailArgs }]
        else []
      let limCmd : List Command :=
        if limit_fps_software_decode then
          [{ name := display ++ " (" ++ cdisp ++ ", 软解+硬编, 限"
                ++ toString max_fps ++ "fps)",
             cmd := ["ffmpeg", "-y", "-hide_banner", "-i", filepath,
                "-vf", "fps=" ++ toString max_fps] ++ tailArgs }]
        else []
      hwCmd ++ limCmd ++
        [{ name := display ++ " (" ++ cdisp ++ ", 软解+硬编)",
           cmd := ["ffmpeg", "-y", "-hide_banner", "-i", filepath]
              ++ tailArgs }]

/-! ## Theorems -/

/-- The smallest default bucket value bounds `specCap` from below. -/
lemma specCap_ge (w h : Nat) : 1500000 ≤ specCap w h := by
  unfold specCap
  split_ifs <;> norm_num

/-- The cap computation of `calculate_target_bitrate` on the default table
agrees with the bucket description in the spec. -/
lemma defaultCap_eq_specCap (w h : Nat) :
    (((sortKeys (MAX_BITRATE_BY_RESOLUTION.map Prod.fst)).find?
        (fun k => min w h ≤ k)).map (dictGet MAX_BITRATE_BY_RESOLUTION)
      |>.getD (dictGet MAX_BITRATE_BY_RESOLUTION
        (maxKey MAX_BITRATE_BY_RESOLUTION))) = specCap w h := by
  have hs : sortKeys (MAX_BITRATE_BY_RESOLUTION.map Prod.fst)
      = [720, 1080, 1440, 2160] := by decide
  rw [hs]
  by_cases h1 : min w h ≤ 720 <;> by_cases h2 : min w h ≤ 1080 <;>
    by_cases h3 : min w h ≤ 1440 <;> by_cases h4 : min w h ≤ 2160 <;>
    simp [List.find?, h1, h2, h3, h4, dictGet, maxKey,
      MAX_BITRATE_BY_RESOLUTION, specCap]

/-- C5: with no forced bitrate and the default resolution table,
`calculate_target_bitrate` returns `max B_min (min (r·b₀) cap)` where
`r·b₀` is the source expression `int(b₀ * 0.5) = b₀ / 2` and `cap` is the bucket value
of the smallest short-side threshold covering `min w h` (the maximum bucket
when the short side exceeds every threshold); consequently
`B_min ≤ result ≤ cap`, and `result ≤ r·b₀` unless clamped by the floor. -/
theorem calculate_target_bitrate_spec (b0 w h : Nat) :
    calculate_target_bitrate b0 w h false 0 MAX_BITRATE_BY_RESOLUTION
        = max MIN_BITRATE (min (b0 / 2) (specCap w h))
    ∧ MIN_BITRATE
        ≤ calculate_target_bitrate b0 w h false 0 MAX_BITRATE_BY_RESOLUTION
    ∧ calculate_target_bitrate b0 w h false 0 MAX_BITRATE_BY_RESOLUTION
        ≤ specCap w h
    ∧ (calculate_target_bitrate b0 w h false 0 MAX_BITRATE_BY_RESOLUTION
          ≤ b0 / 2
        ∨ calculate_target_bitrate b0 w h false 0 MAX_BITRATE_BY_RESOLUTION
          = MIN_BITRATE) := by
  have hcap := defaultCap_eq_specCap w h
  have hmain : calculate_target_bitrate b0 w h false 0
      MAX_BITRATE_BY_RESOLUTION
      = max MIN_BITRATE (min (b0 / 2) (specCap w h)) := by
    unfold calculate_target_bitrate
    simp only [Bool.false_eq_true, if_false]
    rw [← hcap]
    rcases hfind : (sortKeys (MAX_BITRATE_BY_RESOLUTION.map Prod.fst)).find?
        (fun k => min w h ≤ k) with _ | v
    · simp [hfind, MAX_BITRATE_BY_RESOLUTION]
    · simp [hfind]
  refine ⟨hmain, ?_, ?_, ?_⟩
  · rw [hmain]; exact le_max_left _ _
  · rw [hmain]
    refine max_le ?_ (min_le_right _ _)
    have := specCap_ge w h
    unfold MIN_BITRATE
    omega
  · rw [hmain]
    rcases le_total (min (b0 / 2) (specCap w h)) MIN_BITRATE with hle | hle
    · right; exact Nat.max_eq_left hle
    · left
      rw [Nat.max_eq_right hle]
      exact min_le_left _ _

/-- C10: `EncoderSlot.get_load` is total — it returns
`current_tasks / max_concurrent` whenever `max_concurrent > 0` and `1.0`
when `max_concurrent = 0`, so the division in the source is guarded and
never divides by zero. -/
theorem get_load_total (s : SlotState) :
    (0 < s.max_concurrent →
      s.get_load = (s.current_tasks : ℚ) / (s.max_concurrent : ℚ))
    ∧ (s.max_concurrent = 0 → s.get_load = 1) := by
  constructor <;> intro hc <;> simp [SlotState.get_load, hc]

/-- Witness for C10: both branches of `get_load_total` evaluated on
concrete slots. -/
theorem get_load_total_witness :
    (0 < (SlotState.mk 2 1 1 0 0).max_concurrent
      ∧ (SlotState.mk 2 1 1 0 0).get_load = ((1 : Int) : ℚ) / ((2 : Nat) : ℚ))
    ∧ ((SlotState.mk 0 0 3 0 0).max_concurrent = 0
      ∧ (SlotState.mk 0 0 3 0 0).get_load = 1) :=
  ⟨⟨by decide, (get_load_total (SlotState.mk 2 1 1 0 0)).1 (by decide)⟩,
   ⟨rfl, (get_load_total (SlotState.mk 0 0 3 0 0)).2 rfl⟩⟩

/-- A registry holding one live process, used to refute C8 as stated. -/
def regOneProc : RegistryState :=
  { procs := [ProcState.mk 7 true true false false],
    shutdown_requested := false }

/-- Counterexample to C8 as stated: after `terminate_all_ffmpeg` returns,
the registry still holds the (terminated) handle — the set is not empty,
because the function never removes handles from `_ffmpeg_processes`. -/
theorem terminate_all_registry_not_empty :
    (terminate_all_ffmpeg regOneProc).procs ≠ []
    ∧ (terminate_all_ffmpeg regOneProc).procs.length = 1 := by
  constructor
  · simp [terminate_all_ffmpeg, regOneProc]
  · simp [terminate_all_ffmpeg, regOneProc]

/-- C8 (amended): `terminate_all_ffmpeg` sets the shutdown flag, applies
`termStep` to every registered handle — pid unchanged, sends `terminate()`
to every running process, every process ends not running, and a running
process that does not exit within the grace window is force-killed — but
leaves the registry holding the same handles (it never empties the set). -/
theorem terminate_all_spec (r : RegistryState) :
    (terminate_all_ffmpeg r).shutdown_requested = true
    ∧ (terminate_all_ffmpeg r).procs = r.procs.map termStep
    ∧ (terminate_all_ffmpeg r).procs.length = r.procs.length
    ∧ ∀ p ∈ r.procs,
        (termStep p).pid = p.pid
        ∧ (termStep p).running = false
        ∧ (p.running = true → (termStep p).termSent = true)
        ∧ (p.running = true → p.exitsOnTerm = false →
            (termStep p).killed = true) := by
  refine ⟨rfl, rfl, by simp [terminate_all_ffmpeg], ?_⟩
  intro p _
  unfold termStep
  cases hr : p.running <;> cases he : p.exitsOnTerm <;> simp [hr, he]

/-- Witness for C8 (amended): the amended behaviour evaluated on
`regOneProc`. -/
theorem terminate_all_spec_witness :
    (terminate_all_ffmpeg regOneProc).shutdown_requested = true
    ∧ (terminate_all_ffmpeg regOneProc).procs
        = regOneProc.procs.map termStep
    ∧ (termStep (ProcState.mk 7 true true false false)).running = false :=
  have h := terminate_all_spec regOneProc
  ⟨h.1, h.2.1,
    (h.2.2.2 (ProcState.mk 7 true true false false) (by simp [regOneProc])).2.1⟩

/-- Counterexample to C3 as stated: the hard cap on the retry counter
defaults to `10` (`TaskState.max_retries`), not `20`. -/
theorem max_retries_default_not_twenty :
    (TaskState.init "a.mp4" 1).max_retries = 10
    ∧ (TaskState.init "a.mp4" 1).max_retries ≠ 20 := by
  exact ⟨rfl, by decide⟩

/-- The attempt loop adds at most one attempt per unit of fuel, i.e. per
retry-counter increment. -/
lemma schedLoop_hist_length (oracle : EncoderType → DecodeMode → EncodeOutcome)
    (enabled : List EncoderType) (cpu_fallback : Bool) :
    ∀ fuel ts hist evs,
      (schedLoop oracle enabled cpu_fallback fuel ts hist evs).hist.length
        ≤ hist.length + fuel := by
  intro fuel
  induction fuel with
  | zero => intro ts hist evs; simp [schedLoop]
  | succ n ih =>
    intro ts hist evs
    simp only [schedLoop]
    cases hsel : selectEncoder enabled cpu_fallback ts with
    | none =>
      by_cases hrc : ts.retry_count < 3
      · simp only [if_pos hrc]
        exact le_trans (ih _ _ _) (by omega)
      · simp only [if_neg hrc]
        omega
    | some e =>
      cases hnext : nextDecodeMode e ts with
      | none =>
        simp only [hnext]
        exact le_trans (ih _ _ _) (by omega)
      | some m =>
        simp only [hnext]
        cases horc : oracle e m with
        | ret r =>
          simp only [horc]
          by_cases hs : r.success
          · simp only [if_pos hs]
            simp
          · simp only [if_neg hs]
            refine le_trans (ih _ _ _) ?_
            simp
            omega
        | exc s =>
          simp only [horc]
          refine le_trans (ih _ _ _) ?_
          simp
          omega

/-- The returned `retry_history` is always the label image of the attempt
history, on every exit path of the loop. -/
lemma schedLoop_result_history
    (oracle : EncoderType → DecodeMode → EncodeOutcome)
    (enabled : List EncoderType) (cpu_fallback : Bool) :
    ∀ fuel ts hist evs,
      (schedLoop oracle enabled cpu_fallback fuel ts hist evs).result.retry_history
        = (schedLoop oracle enabled cpu_fallback fuel ts hist evs).hist.map
            (fun p => retryInfo p.1 p.2) := by
  intro fuel
  induction fuel with
  | zero => intro ts hist evs; simp [schedLoop, exhaustResult]
  | succ n ih =>
    intro ts hist evs
    simp only [schedLoop]
    cases hsel : selectEncoder enabled cpu_fallback ts with
    | none =>
      by_cases hrc : ts.retry_count < 3
      · simp only [if_pos hrc]; exact ih _ _ _
      · simp only [if_neg hrc]; simp [exhaustResult]
    | some e =>
      cases hnext : nextDecodeMode e ts with
      | none =>
        simp only [hnext]
        exact ih _ _ _
      | some m =>
        simp only [hnext]
        cases horc : oracle e m with
        | ret r =>
          simp only [horc]
          by_cases hs : r.success
          · simp only [if_pos hs]
          · simp only [if_neg hs]; exact ih _ _ _
        | exc s =>
          simp only [horc]
          exact ih _ _ _

/-- C3 (amended): the hard cap of the retry counter defaults to `10`, and the
attempt loop makes no more attempts than the cap: for every encode
function, encoder configuration and input, the attempt history (and hence
`retry_history`) of `schedule_task` has at most `max_retries = 10`
entries. -/
theorem retry_cap_bounds_attempts
    (oracle : EncoderType → DecodeMode → EncodeOutcome)
    (enabled : List EncoderType) (cpu_fallback : Bool)
    (fp : String) (id : Nat) :
    (TaskState.init fp id).max_retries = 10
    ∧ (schedule_task oracle enabled cpu_fallback fp id).hist.length ≤ 10
    ∧ (schedule_task oracle enabled cpu_fallback fp id).result.retry_history.length
        ≤ 10 := by
  have h1 := schedLoop_hist_length oracle enabled cpu_fallback 10
    (TaskState.init fp id) [] []
  have h2 := schedLoop_result_history oracle enabled cpu_fallback 10
    (TaskState.init fp id) [] []
  refine ⟨rfl, ?_, ?_⟩
  · simpa [schedule_task] using h1
  · simp only [schedule_task]
    simp [h2]
    simpa using h1

/-- With an encode function that never succeeds, the loop always returns
the `exhaustResult` of its final state, records exactly one error per
attempt, and preserves the file path. -/
lemma schedLoop_fail_result
    (oracle : EncoderType → DecodeMode → EncodeOutcome)
    (hfail : ∀ e m, outcomeSucceeds (oracle e m) = false)
    (enabled : List EncoderType) (cpu_fallback : Bool) :
    ∀ fuel ts hist evs,
      (schedLoop oracle enabled cpu_fallback fuel ts hist evs).result
          = exhaustResult
              (schedLoop oracle enabled cpu_fallback fuel ts hist evs).finalState
              (schedLoop oracle enabled cpu_fallback fuel ts hist evs).hist
      ∧ (schedLoop oracle enabled cpu_fallback fuel ts hist evs).finalState.errors.length
            + hist.length
          = ts.errors.length
            + (schedLoop oracle enabled cpu_fallback fuel ts hist evs).hist.length := by
  intro fuel
  induction fuel with
  | zero =>
    intro ts hist evs
    constructor <;> simp [schedLoop]
  | succ n ih =>
    intro ts hist evs
    simp only [schedLoop]
    cases hsel : selectEncoder enabled cpu_fallback ts with
    | none =>
      by_cases hrc : ts.retry_count < 3
      · simp only [if_pos hrc]; exact ih _ _ _
      · simp only [if_neg hrc]
        constructor <;> simp
    | some e =>
      cases hnext : nextDecodeMode e ts with
      | none =>
        simp only [hnext]
        exact ih _ _ _
      | some m =>
        simp only [hnext]
        cases horc : oracle e m with
        | ret r =>
          simp only [horc]
          have hr : r.success = false := by
            have := hfail e m
            rw [horc] at this
            exact this
          simp only [hr, Bool.false_eq_true, if_false]
          refine ⟨(ih _ _ _).1, ?_⟩
          have := (ih { ts with
              tried_modes := fun x =>
                if x = e then (ts.tried_modes e).insert m
                else ts.tried_modes x,
              errors := ts.errors ++ [retryInfo e m ++ ": " ++ pyStr r.error],
              retry_count := ts.retry_count + 1 }
            (hist ++ [(e, m)])
            ((evs ++ [SchedEvent.acquireSlot e])
              ++ [SchedEvent.releaseSlot e false])).2
          simp at this
          simp
          omega
        | exc s =>
          simp only [horc]
          refine ⟨(ih _ _ _).1, ?_⟩
          have := (ih { ts with
              tried_modes := fun x =>
                if x = e then (ts.tried_modes e).insert m
                else ts.tried_modes x,
              errors := ts.errors ++ [retryInfo e m ++ ": " ++ s],
              retry_count := ts.retry_count + 1 }
            (hist ++ [(e, m)])
            ((evs ++ [SchedEvent.acquireSlot e])
              ++ [SchedEvent.releaseSlot e false])).2
          simp at this
          simp
          omega

/-- C2 (amended): whenever every attempt fails (the encode function never
returns success), `schedule_task` returns a terminal `TaskResult` with
`success = false`, whose `error` is the fixed prefix `"所有编码方式均失败: "`
followed by the last (at most) three recorded per-attempt error messages
joined by `"; "`, and whose `retry_history` lists exactly the attempts that
were made; one error message is recorded per attempt.  The source
`TaskResult` dataclass has no `skipped` field — abandonment is indicated
only by `success = false` together with this error text. -/
theorem exhausted_result_spec
    (oracle : EncoderType → DecodeMode → EncodeOutcome)
    (enabled : List EncoderType) (cpu_fallback : Bool)
    (fp : String) (id : Nat)
    (hfail : ∀ e m, outcomeSucceeds (oracle e m) = false) :
    (schedule_task oracle enabled cpu_fallback fp id).result.success = false
    ∧ (schedule_task oracle enabled cpu_fallback fp id).result.error
        = some ("所有编码方式均失败: " ++ String.intercalate "; "
            (lastThree
              (schedule_task oracle enabled cpu_fallback fp id).finalState.errors))
    ∧ (schedule_task oracle enabled cpu_fallback fp id).result.retry_history
        = (schedule_task oracle enabled cpu_fallback fp id).hist.map
            (fun p => retryInfo p.1 p.2)
    ∧ (schedule_task oracle enabled cpu_fallback fp id).finalState.errors.length
        = (schedule_task oracle enabled cpu_fallback fp id).hist.length := by
  have h := schedLoop_fail_result oracle hfail enabled cpu_fallback 10
    (TaskState.init fp id) [] []
  have hh := schedLoop_result_history oracle enabled cpu_fallback 10
    (TaskState.init fp id) [] []
  simp only [schedule_task]
  refine ⟨?_, ?_, ?_, ?_⟩
  · simp only [h.1, exhaustResult]
  · simp only [h.1, exhaustResult]
  · simpa using hh
  · have := h.2
    simp [TaskState.init] at this
    simpa using this

/-- An encode function that fails every attempt with error `"boom"`. -/
def failOracle : EncoderType → DecodeMode → EncodeOutcome :=
  fun _ _ => EncodeOutcome.ret { success := false, error := some "boom" }

/-- Witness for C2 (amended): `exhausted_result_spec` applied to a concrete
all-failing run with only NVENC enabled and CPU fallback on. -/
theorem exhausted_result_spec_witness :
    (schedule_task failOracle [EncoderType.nvenc] true "f.mp4" 1).result.success
        = false
    ∧ (schedule_task failOracle [EncoderType.nvenc] true "f.mp4" 1).result.error
        = some ("所有编码方式均失败: " ++ String.intercalate "; "
            (lastThree
              (schedule_task failOracle [EncoderType.nvenc] true "f.mp4"
                1).finalState.errors))
    ∧ (schedule_task failOracle [EncoderType.nvenc] true "f.mp4"
          1).result.retry_history
        = (schedule_task failOracle [EncoderType.nvenc] true "f.mp4" 1).hist.map
            (fun p => retryInfo p.1 p.2)
    ∧ (schedule_task failOracle [EncoderType.nvenc] true "f.mp4"
          1).finalState.errors.length
        = (schedule_task failOracle [EncoderType.nvenc] true "f.mp4"
            1).hist.length :=
  exhausted_result_spec failOracle [EncoderType.nvenc] true "f.mp4" 1
    (fun _ _ => rfl)

/-- Counterexample to C2 as stated: on a concrete exhausted run the error
text is not the bare `"; "`-join of the last three attempt errors — the
source prepends `"所有编码方式均失败: "` — and the `TaskResult` carries no
`skipped` field that could be `true`; the terminal record is
distinguishable from the description in the spec only by `success = false` and
this prefixed error text. -/
theorem exhausted_error_not_plain_join :
    (schedule_task failOracle [EncoderType.nvenc] false "f.mp4" 1).result.error
      = some ("所有编码方式均失败: nvenc:hw_decode: boom; "
          ++ "nvenc:sw_decode_limited: boom; nvenc:sw_decode: boom")
    ∧ (schedule_task failOracle [EncoderType.nvenc] false "f.mp4"
          1).result.error
      ≠ some (String.intercalate "; "
          (lastThree (schedule_task failOracle [EncoderType.nvenc] false
              "f.mp4" 1).finalState.errors)) := by
  constructor
  · rfl
  · decide

/-- Replay invariant for `EncoderSlot`: over any call sequence, the
configuration is constant, `current_tasks` moves by successful acquires
minus releases, the semaphore counter mirrors them, and the outcome
counters absorb one unit per release. -/
lemma slot_foldl_inv (ops : List SlotOp) : ∀ s : SlotState,
    (ops.foldl SlotState.step s).max_concurrent = s.max_concurrent
    ∧ (ops.foldl SlotState.step s).current_tasks + (releaseCount ops : Int)
        = s.current_tasks + (okAcquiresFrom s ops : Int)
    ∧ (ops.foldl SlotState.step s).sem + okAcquiresFrom s ops
        = s.sem + releaseCount ops
    ∧ (ops.foldl SlotState.step s).total_completed
          + (ops.foldl SlotState.step s).total_failed
        = s.total_completed + s.total_failed + releaseCount ops := by
  induction ops with
  | nil => intro s; simp [releaseCount, okAcquiresFrom]
  | cons op rest ih =>
    intro s
    have hr := ih (s.step op)
    cases op with
    | acquire =>
      by_cases hs : 0 < s.sem
      · simp only [List.foldl_cons, okAcquiresFrom, releaseCount,
          List.filter_cons] at hr ⊢
        simp only [SlotState.step, if_pos hs] at hr ⊢
        push_cast at hr ⊢
        refine ⟨hr.1, ?_, ?_, ?_⟩ <;> omega
      · simp only [List.foldl_cons, okAcquiresFrom, releaseCount,
          List.filter_cons] at hr ⊢
        simp only [SlotState.step, if_neg hs] at hr ⊢
        push_cast at hr ⊢
        refine ⟨hr.1, ?_, ?_, ?_⟩ <;> omega
    | release b =>
      cases b <;>
      · simp only [List.foldl_cons, okAcquiresFrom, releaseCount,
          List.filter_cons] at hr ⊢
        simp only [SlotState.step, if_pos, if_neg] at hr ⊢
        push_cast at hr ⊢
        simp at hr ⊢
        omega

/-- C6: for every `EncoderSlot` and every call sequence in which, at every
prefix, releases never outnumber the acquires that obtained the slot, every
observation point satisfies `0 ≤ current_tasks ≤ max_concurrent`, and
`total_completed + total_failed` equals the number of `release` calls
observed since construction. -/
theorem slot_invariants (max_c : Nat) (ops : List SlotOp)
    (h : ∀ n, n ≤ ops.length →
      releaseCount (ops.take n) ≤ okAcquireCount max_c (ops.take n)) :
    ∀ n, n ≤ ops.length →
      0 ≤ (SlotState.run max_c (ops.take n)).current_tasks
      ∧ (SlotState.run max_c (ops.take n)).current_tasks ≤ (max_c : Int)
      ∧ (SlotState.run max_c (ops.take n)).total_completed
            + (SlotState.run max_c (ops.take n)).total_failed
        = releaseCount (ops.take n) := by
  intro n hn
  have hinv := slot_foldl_inv (ops.take n) (SlotState.init max_c)
  have hrel := h n hn
  simp only [SlotState.run, SlotState.init] at hinv ⊢
  simp only [okAcquireCount, SlotState.init] at hrel
  obtain ⟨_, h2, h3, h4⟩ := hinv
  refine ⟨?_, ?_, ?_⟩ <;> omega

/-- A concrete call sequence on a one-permit slot: a successful acquire, a
successful release, a successful acquire, a blocked acquire, a failed
release. -/
def wSlotOps : List SlotOp :=
  [SlotOp.acquire, SlotOp.release true, SlotOp.acquire, SlotOp.acquire,
   SlotOp.release false]

/-- Witness for C6: the invariants evaluated after the full concrete call
sequence `wSlotOps` on a slot with one permit. -/
theorem slot_invariants_witness :
    0 ≤ (SlotState.run 1 (wSlotOps.take 5)).current_tasks
    ∧ (SlotState.run 1 (wSlotOps.take 5)).current_tasks ≤ (1 : Int)
    ∧ (SlotState.run 1 (wSlotOps.take 5)).total_completed
          + (SlotState.run 1 (wSlotOps.take 5)).total_failed
        = releaseCount (wSlotOps.take 5) :=
  slot_invariants 1 wSlotOps (by decide) 5 (by decide)

/-- A trace consists of immediately matched pairs: each `acquireSlot e` is
followed at once by `releaseSlot e _`, with nothing else in between — in
particular it contains no global-semaphore events. -/
def slotBalanced : List SchedEvent → Bool
  | [] => true
  | SchedEvent.acquireSlot e :: SchedEvent.releaseSlot e2 _ :: rest =>
    decide (e = e2) && slotBalanced rest
  | _ => false

/-- The attempt loop only ever appends matched `acquireSlot e / releaseSlot
e` pairs to the event trace, whatever the encode function does (including
raising exceptions). -/
lemma schedLoop_events_shape
    (oracle : EncoderType → DecodeMode → EncodeOutcome)
    (enabled : List EncoderType) (cpu_fallback : Bool) :
    ∀ fuel ts hist evs, ∃ tr,
      (schedLoop oracle enabled cpu_fallback fuel ts hist evs).events
          = evs ++ tr
      ∧ slotBalanced tr = true := by
  intro fuel
  induction fuel with
  | zero => intro ts hist evs; exact ⟨[], by simp [schedLoop], rfl⟩
  | succ n ih =>
    intro ts hist evs
    simp only [schedLoop]
    cases hsel : selectEncoder enabled cpu_fallback ts with
    | none =>
      by_cases hrc : ts.retry_count < 3
      · simp only [if_pos hrc]; exact ih _ _ _
      · simp only [if_neg hrc]; exact ⟨[], by simp, rfl⟩
    | some e =>
      cases hnext : nextDecodeMode e ts with
      | none =>
        simp only [hnext]
        exact ih _ _ _
      | some m =>
        simp only [hnext]
        cases horc : oracle e m with
        | ret r =>
          simp only [horc]
          by_cases hs : r.success
          · simp only [if_pos hs]
            refine ⟨[SchedEvent.acquireSlot e, SchedEvent.releaseSlot e true],
              ?_, ?_⟩
            · simp
            · simp [slotBalanced]
          · simp only [if_neg hs]
            obtain ⟨tr, htr, hbal⟩ := ih _ _ _
            refine ⟨SchedEvent.acquireSlot e :: SchedEvent.releaseSlot e false
              :: tr, ?_, ?_⟩
            · rw [htr]; simp
            · simp [slotBalanced, hbal]
        | exc s =>
          simp only [horc]
          obtain ⟨tr, htr, hbal⟩ := ih _ _ _
          refine ⟨SchedEvent.acquireSlot e :: SchedEvent.releaseSlot e false
            :: tr, ?_, ?_⟩
          · rw [htr]; simp
          · simp [slotBalanced, hbal]

/-- C7: on every execution path of `schedule_task` — for every encode
function (successes, failures and raised exceptions alike) and every
configuration — the event trace is `acquireGlobal`, then a sequence of
immediately matched `acquireSlot e / releaseSlot e` pairs, then
`releaseGlobal`: a worker never holds an encoder slot without holding the
global permit, the global permit is acquired before any slot, and every
acquired slot is released before the global permit is released. -/
theorem global_permit_brackets_slots
    (oracle : EncoderType → DecodeMode → EncodeOutcome)
    (enabled : List EncoderType) (cpu_fallback : Bool)
    (fp : String) (id : Nat) :
    ∃ inner,
      (schedule_task oracle enabled cpu_fallback fp id).events
        = SchedEvent.acquireGlobal :: inner ++ [SchedEvent.releaseGlobal]
      ∧ slotBalanced inner = true := by
  obtain ⟨tr, htr, hbal⟩ := schedLoop_events_shape oracle enabled cpu_fallback
    10 (TaskState.init fp id) [] []
  refine ⟨tr, ?_, hbal⟩
  simp only [schedule_task]
  rw [htr]
  simp

/-- Occurrences of `acquireSlot e` in a trace. -/
def countSlotAcq (e : EncoderType) (tr : List SchedEvent) : Nat :=
  (tr.filter fun ev => match ev with
    | SchedEvent.acquireSlot x => decide (x = e)
    | _ => false).length

/-- Occurrences of `releaseSlot e _` in a trace. -/
def countSlotRel (e : EncoderType) (tr : List SchedEvent) : Nat :=
  (tr.filter fun ev => match ev with
    | SchedEvent.releaseSlot x _ => decide (x = e)
    | _ => false).length

/-- Occurrences of `acquireGlobal` in a trace. -/
def countGlobalAcq (tr : List SchedEvent) : Nat :=
  (tr.filter fun ev => match ev with
    | SchedEvent.acquireGlobal => true
    | _ => false).length

/-- Occurrences of `releaseGlobal` in a trace. -/
def countGlobalRel (tr : List SchedEvent) : Nat :=
  (tr.filter fun ev => match ev with
    | SchedEvent.releaseGlobal => true
    | _ => false).length

/-- Per-encoder slot events produced by the loop match the attempts
recorded in the history, one acquire and one release per attempt; the loop
emits no global-semaphore events. -/
lemma schedLoop_counts
    (oracle : EncoderType → DecodeMode → EncodeOutcome)
    (enabled : List EncoderType) (cpu_fallback : Bool) :
    ∀ fuel ts hist evs e,
      countSlotAcq e (schedLoop oracle enabled cpu_fallback fuel ts hist
            evs).events
          + (hist.filter (fun p => p.1 = e)).length
        = countSlotAcq e evs
          + ((schedLoop oracle enabled cpu_fallback fuel ts hist
              evs).hist.filter (fun p => p.1 = e)).length
      ∧ countSlotRel e (schedLoop oracle enabled cpu_fallback fuel ts hist
            evs).events
          + (hist.filter (fun p => p.1 = e)).length
        = countSlotRel e evs
          + ((schedLoop oracle enabled cpu_fallback fuel ts hist
              evs).hist.filter (fun p => p.1 = e)).length
      ∧ countGlobalAcq (schedLoop oracle enabled cpu_fallback fuel ts hist
            evs).events = countGlobalAcq evs
      ∧ countGlobalRel (schedLoop oracle enabled cpu_fallback fuel ts hist
            evs).events = countGlobalRel evs := by
  intro fuel
  induction fuel with
  | zero => intro ts hist evs e; simp [schedLoop]
  | succ n ih =>
    intro ts hist evs e
    simp only [schedLoop]
    cases hsel : selectEncoder enabled cpu_fallback ts with
    | none =>
      by_cases hrc : ts.retry_count < 3
      · simp only [if_pos hrc]; exact ih _ _ _ _
      · simp only [if_neg hrc]; simp
    | some e0 =>
      cases hnext : nextDecodeMode e0 ts with
      | none =>
        simp only [hnext]
        exact ih _ _ _ _
      | some m =>
        simp only [hnext]
        cases horc : oracle e0 m with
        | ret r =>
          simp only [horc]
          by_cases hs : r.success
          · simp only [if_pos hs]
            simp only [countSlotAcq, countSlotRel, countGlobalAcq,
              countGlobalRel, List.filter_append, List.length_append]
            by_cases he : e0 = e <;> simp [he] <;> omega
          · simp only [if_neg hs]
            have h := ih ({ ts with
                tried_modes := fun x =>
                  if x = e0 then (ts.tried_modes e0).insert m
                  else ts.tried_modes x,
                errors := ts.errors
                  ++ [retryInfo e0 m ++ ": " ++ pyStr r.error],
                retry_count := ts.retry_count + 1 })
              (hist ++ [(e0, m)])
              ((evs ++ [SchedEvent.acquireSlot e0])
                ++ [SchedEvent.releaseSlot e0 false]) e
            simp only [countSlotAcq, countSlotRel, countGlobalAcq,
              countGlobalRel, List.filter_append, List.length_append] at h ⊢
            by_cases he : e0 = e <;> simp [he] at h ⊢ <;> omega
        | exc s =>
          simp only [horc]
          have h := ih ({ ts with
              tried_modes := fun x =>
                if x = e0 then (ts.tried_modes e0).insert m
                else ts.tried_modes x,
              errors := ts.errors ++ [retryInfo e0 m ++ ": " ++ s],
              retry_count := ts.retry_count + 1 })
            (hist ++ [(e0, m)])
            ((evs ++ [SchedEvent.acquireSlot e0])
              ++ [SchedEvent.releaseSlot e0 false]) e
          simp only [countSlotAcq, countSlotRel, countGlobalAcq,
            countGlobalRel, List.filter_append, List.length_append] at h ⊢
          by_cases he : e0 = e <;> simp [he] at h ⊢ <;> omega

/-- C9: on every execution path of `schedule_task` — attempts succeeding,
failing or raising — every encoder slot is acquired once and released once
per attempt on that encoder (so per-slot acquires equal releases), and the
global permit acquired on entry is released exactly once; both semaphores
therefore return to their initial counts when the task finishes. -/
theorem semaphores_return_to_initial
    (oracle : EncoderType → DecodeMode → EncodeOutcome)
    (enabled : List EncoderType) (cpu_fallback : Bool)
    (fp : String) (id : Nat) :
    (∀ e,
      countSlotAcq e (schedule_task oracle enabled cpu_fallback fp id).events
        = ((schedule_task oracle enabled cpu_fallback fp
            id).hist.filter (fun p => p.1 = e)).length
      ∧ countSlotRel e (schedule_task oracle enabled cpu_fallback fp
            id).events
        = ((schedule_task oracle enabled cpu_fallback fp
            id).hist.filter (fun p => p.1 = e)).length)
    ∧ countGlobalAcq (schedule_task oracle enabled cpu_fallback fp id).events
        = 1
    ∧ countGlobalRel (schedule_task oracle enabled cpu_fallback fp id).events
        = 1 := by
  refine ⟨fun e => ?_, ?_, ?_⟩
  · have h := schedLoop_counts oracle enabled cpu_fallback 10
      (TaskState.init fp id) [] [] e
    simp only [schedule_task]
    constructor
    · have := h.1
      simp only [List.filter_nil, List.length_nil] at this
      simp [countSlotAcq, List.filter_append] at this ⊢
      omega
    · have := h.2.1
      simp only [List.filter_nil, List.length_nil] at this
      simp [countSlotRel, List.filter_append] at this ⊢
      omega
  · have h := (schedLoop_counts oracle enabled cpu_fallback 10
      (TaskState.init fp id) [] [] EncoderType.cpu).2.2.1
    simp only [schedule_task]
    simp [countGlobalAcq, List.filter_append] at h ⊢
    exact h
  · have h := (schedLoop_counts oracle enabled cpu_fallback 10
      (TaskState.init fp id) [] [] EncoderType.cpu).2.2.2
    simp only [schedule_task]
    simp [countGlobalRel, List.filter_append] at h ⊢
    exact h

/-- C4 (amended, builder half): for every hardware encoder and every source
codec outside `supported_hw_decode_codecs` (e.g. WMV3), the command
builder emits no HW-decode command: `build_single_encoder_commands`
returns exactly the two software-decode commands — the fps-limited
SW_DECODE_LIMITED one first, then the SW_DECODE one — and no `-hwaccel`
flag appears in either argv. -/
theorem builder_skips_hw_decode_for_unsupported_codec
    (fp tmp source_codec hw_accel : String) (br max_fps : Nat)
    (hhw : hw_accel = "nvenc" ∨ hw_accel = "videotoolbox" ∨ hw_accel = "qsv")
    (hcodec : source_codec ∉ supported_hw_decode_codecs) :
    ∃ hw_encoder,
      hwEncoderFor (HW_ENCODERS hw_accel) "hevc" = some hw_encoder
      ∧ build_single_encoder_commands fp tmp br source_codec hw_accel "hevc"
          true true max_fps
        = [{ name := hwDisplay hw_accel ++ " (HEVC/H.265, 软解+硬编, 限"
              ++ toString max_fps ++ "fps)",
             cmd := ["ffmpeg", "-y", "-hide_banner", "-i", fp,
               "-vf", "fps=" ++ toString max_fps, "-c:v", hw_encoder,
               "-b:v", toString br, "-c:a", "aac", "-b:a", "128k", tmp] },
           { name := hwDisplay hw_accel ++ " (HEVC/H.265, 软解+硬编)",
             cmd := ["ffmpeg", "-y", "-hide_banner", "-i", fp,
               "-c:v", hw_encoder, "-b:v", toString br,
               "-c:a", "aac", "-b:a", "128k", tmp] }] := by
  rcases hhw with h | h | h <;> subst h
  · exact ⟨"hevc_nvenc", rfl, by
      simp [build_single_encoder_commands, HW_ENCODERS, hwEncoderFor,
        hwDisplay, codecDisplay, AUDIO_BITRATE, hcodec]⟩
  · exact ⟨"hevc_videotoolbox", rfl, by
      simp [build_single_encoder_commands, HW_ENCODERS, hwEncoderFor,
        hwDisplay, codecDisplay, AUDIO_BITRATE, hcodec]⟩
  · exact ⟨"hevc_qsv", rfl, by
      simp [build_single_encoder_commands, HW_ENCODERS, hwEncoderFor,
        hwDisplay, codecDisplay, AUDIO_BITRATE, hcodec]⟩

/-- Witness for C4 (amended): the builder evaluated for an NVENC encode of
a WMV3 source. -/
theorem builder_skips_hw_decode_witness :
    ("wmv3" ∉ supported_hw_decode_codecs)
    ∧ ∃ hw_encoder,
      hwEncoderFor (HW_ENCODERS "nvenc") "hevc" = some hw_encoder
      ∧ build_single_encoder_commands "in.wmv" "out.mp4" 3000000 "wmv3"
          "nvenc" "hevc" true true 30
        = [{ name := hwDisplay "nvenc" ++ " (HEVC/H.265, 软解+硬编, 限"
              ++ toString 30 ++ "fps)",
             cmd := ["ffmpeg", "-y", "-hide_banner", "-i", "in.wmv",
               "-vf", "fps=" ++ toString 30, "-c:v", hw_encoder,
               "-b:v", toString 3000000, "-c:a", "aac", "-b:a", "128k",
               "out.mp4"] },
           { name := hwDisplay "nvenc" ++ " (HEVC/H.265, 软解+硬编)",
             cmd := ["ffmpeg", "-y", "-hide_banner", "-i", "in.wmv",
               "-c:v", hw_encoder, "-b:v", toString 3000000,
               "-c:a", "aac", "-b:a", "128k", "out.mp4"] }] :=
  ⟨by decide,
   builder_skips_hw_decode_for_unsupported_codec "in.wmv" "out.mp4" "wmv3"
     "nvenc" 3000000 30 (Or.inl rfl) (by decide)⟩

/-- Counterexample to C4 as stated (scheduler half): the decode-mode
walker `_get_next_decode_mode` of the scheduler never consults the source
codec, so on the run for a WMV3 source whose hardware-decode attempt
fails (only NVENC enabled, every attempt failing), the attempt history
begins with `(NVENC, HW_DECODE)` — not `(NVENC, SW_DECODE_LIMITED)` —
and does contain `(NVENC, HW_DECODE)`. -/
theorem scheduler_history_contains_hw_decode :
    (schedule_task failOracle [EncoderType.nvenc] true "input.wmv" 1).hist.head?
        = some (EncoderType.nvenc, DecodeMode.hw_decode)
    ∧ (EncoderType.nvenc, DecodeMode.hw_decode)
        ∈ (schedule_task failOracle [EncoderType.nvenc] true "input.wmv"
            1).hist := by
  constructor
  · rfl
  · decide

/-! ### C1: the enumeration order of candidate (encoder, decode-mode) pairs

The attempt loop is related to `specOrder` through an invariant describing
the shape of a mid-run `TaskState`: a leading block of fully tried-and-
marked hardware encoders, a current hardware encoder with the first `m`
of its three modes tried, then the CPU phase, then the closed phases. -/

/-- The first `m` decode modes of a hardware encoder, as a tried-mode set. -/
def modeProg : Nat → ModeSet
  | 0 => {}
  | 1 => { hw := true }
  | 2 => { hw := true, swl := true }
  | _ => ModeSet.full

/-- The first `m` decode modes of the CPU encoder, as a tried-mode set. -/
def cpuProg : Nat → ModeSet
  | 0 => {}
  | 1 => { swl := true }
  | _ => { swl := true, sw := true }

/-- The first `m` candidate pairs of a hardware encoder. -/
def hwFirstModes (e : EncoderType) : Nat → List (EncoderType × DecodeMode)
  | 0 => []
  | 1 => [(e, DecodeMode.hw_decode)]
  | 2 => [(e, DecodeMode.hw_decode), (e, DecodeMode.sw_decode_limited)]
  | _ => [(e, DecodeMode.hw_decode), (e, DecodeMode.sw_decode_limited),
      (e, DecodeMode.sw_decode)]

/-- The candidate pairs of a hardware encoder after the first `m`. -/
def hwRestModes (e : EncoderType) : Nat → List (EncoderType × DecodeMode)
  | 0 => [(e, DecodeMode.hw_decode), (e, DecodeMode.sw_decode_limited),
      (e, DecodeMode.sw_decode)]
  | 1 => [(e, DecodeMode.sw_decode_limited), (e, DecodeMode.sw_decode)]
  | 2 => [(e, DecodeMode.sw_decode)]
  | _ => []

/-- The first `m` CPU candidate pairs. -/
def cpuFirstModes : Nat → List (EncoderType × DecodeMode)
  | 0 => []
  | 1 => [(EncoderType.cpu, DecodeMode.sw_decode_limited)]
  | _ => cpuPairs

/-- The CPU candidate pairs after the first `m`. -/
def cpuRestModes : Nat → List (EncoderType × DecodeMode)
  | 0 => cpuPairs
  | 1 => [(EncoderType.cpu, DecodeMode.sw_decode)]
  | _ => []

lemma hwTriples_append (l1 l2 : List EncoderType) :
    hwTriples (l1 ++ l2) = hwTriples l1 ++ hwTriples l2 := by
  induction l1 with
  | nil => simp [hwTriples]
  | cons a l ih => simp [hwTriples, ih]

lemma hwFirstModes_append_rest (e : EncoderType) (m : Nat) :
    hwFirstModes e m ++ hwRestModes e m = hwTriples [e] := by
  rcases m with _ | _ | _ | m <;> rfl

lemma cpuFirstModes_append_rest (m : Nat) :
    cpuFirstModes m ++ cpuRestModes m = cpuPairs := by
  rcases m with _ | _ | m <;> rfl

/-- Decomposing `specOrder` around the current hardware encoder. -/
lemma specOrder_decompA (done : List EncoderType) (e : EncoderType)
    (rest : List EncoderType) (m : Nat) (cpu_fallback : Bool) :
    (hwTriples done ++ hwFirstModes e m)
        ++ (hwRestModes e m ++ (hwTriples rest
            ++ (if cpu_fallback then cpuPairs else [])))
      = specOrder (done ++ e :: rest) cpu_fallback := by
  have h1 := hwFirstModes_append_rest e m
  simp only [specOrder, hwTriples_append]
  have h2 : hwTriples (e :: rest) = hwTriples [e] ++ hwTriples rest := by
    simp [hwTriples]
  rw [h2, ← h1]
  simp [List.append_assoc]

/-- Decomposing `specOrder` around the CPU phase. -/
lemma specOrder_decompB (enabled : List EncoderType) (m : Nat) :
    (hwTriples enabled ++ cpuFirstModes m) ++ cpuRestModes m
      = specOrder enabled true := by
  simp only [specOrder, if_true]
  rw [List.append_assoc, cpuFirstModes_append_rest]

/-- Membership in `hwTriples` forces the encoder into the source list. -/
lemma mem_hwTriples {p : EncoderType × DecodeMode} :
    ∀ {l : List EncoderType}, p ∈ hwTriples l → p.1 ∈ l := by
  intro l
  induction l with
  | nil => intro h; simp [hwTriples] at h
  | cons a t ih =>
    intro h
    simp only [hwTriples, List.mem_cons] at h
    rcases h with h | h | h | h
    · subst h; simp
    · subst h; simp
    · subst h; simp
    · exact List.mem_cons_of_mem a (ih h)

/-- The pair `(CPU, HW_DECODE)` never occurs in the claimed enumeration (CPU is not
in the hardware priority list). -/
lemma cpu_hw_not_mem_specOrder (enabled : List EncoderType)
    (cpu_fallback : Bool) (hcpu : EncoderType.cpu ∉ enabled) :
    (EncoderType.cpu, DecodeMode.hw_decode) ∉ specOrder enabled cpu_fallback := by
  intro hmem
  simp only [specOrder, List.mem_append] at hmem
  rcases hmem with h | h
  · exact hcpu (mem_hwTriples h)
  · rcases cpu_fallback with _ | _ <;> simp [cpuPairs] at h

/-- Shape invariant of a mid-run `TaskState` together with the attempt
history accumulated so far.  The four disjuncts are: walking a hardware
encoder; walking the CPU fallback; CPU marked tried (closed, fallback on);
all hardware encoders marked (closed, fallback off). -/
def SchedInv (enabled : List EncoderType) (cpu_fallback : Bool)
    (ts : TaskState) (hist : List (EncoderType × DecodeMode)) : Prop :=
  (∃ done e rest m, enabled = done ++ e :: rest ∧ m ≤ 3
    ∧ ts.tried_encoders = done
    ∧ (∀ x ∈ done, ts.tried_modes x = ModeSet.full)
    ∧ ts.tried_modes e = modeProg m
    ∧ (∀ x, x ∉ done → x ≠ e → ts.tried_modes x = {})
    ∧ hist = hwTriples done ++ hwFirstModes e m)
  ∨ (cpu_fallback = true ∧ ∃ m, m ≤ 2
    ∧ ts.tried_encoders = enabled
    ∧ (∀ x ∈ enabled, ts.tried_modes x = ModeSet.full)
    ∧ ts.tried_modes EncoderType.cpu = cpuProg m
    ∧ hist = hwTriples enabled ++ cpuFirstModes m)
  ∨ (cpu_fallback = true
    ∧ ts.tried_encoders = enabled ++ [EncoderType.cpu]
    ∧ (∀ x ∈ enabled, ts.tried_modes x = ModeSet.full)
    ∧ hist = hwTriples enabled ++ cpuPairs)
  ∨ (cpu_fallback = false
    ∧ ts.tried_encoders = enabled
    ∧ (∀ x ∈ enabled, ts.tried_modes x = ModeSet.full)
    ∧ hist = hwTriples enabled)

/-- Any history allowed by the invariant extends to the full claimed
enumeration. -/
lemma SchedInv.hist_extends {enabled : List EncoderType}
    {cpu_fallback : Bool} {ts : TaskState}
    {hist : List (EncoderType × DecodeMode)}
    (h : SchedInv enabled cpu_fallback ts hist) :
    ∃ t, hist ++ t = specOrder enabled cpu_fallback := by
  rcases h with ⟨done, e, rest, m, henab, _, _, _, _, _, hhist⟩
    | ⟨hcf, m, _, _, _, _, hhist⟩ | ⟨hcf, _, _, hhist⟩ | ⟨hcf, _, _, hhist⟩
  · subst henab; subst hhist
    exact ⟨_, specOrder_decompA done e rest m cpu_fallback⟩
  · subst hcf; subst hhist
    exact ⟨_, specOrder_decompB enabled m⟩
  · subst hcf; subst hhist
    exact ⟨[], by simp [specOrder]⟩
  · subst hcf; subst hhist
    exact ⟨[], by simp [specOrder]⟩

/-- A fresh `TaskState` satisfies the invariant with the empty history. -/
lemma schedInv_init (enabled : List EncoderType) (cpu_fallback : Bool)
    (fp : String) (id : Nat) :
    SchedInv enabled cpu_fallback (TaskState.init fp id) [] := by
  cases enabled with
  | nil =>
    cases cpu_fallback with
    | true =>
      refine Or.inr (Or.inl ⟨rfl, 0, by omega, rfl, ?_, rfl, ?_⟩)
      · intro x hx; simp at hx
      · simp [hwTriples, cpuFirstModes]
    | false =>
      refine Or.inr (Or.inr (Or.inr ⟨rfl, rfl, ?_, ?_⟩))
      · intro x hx; simp at hx
      · simp [hwTriples]
  | cons e rest =>
    refine Or.inl ⟨[], e, rest, 0, rfl, by omega, rfl, ?_, rfl, ?_, ?_⟩
    · intro x hx; simp at hx
    · intro x _ _; rfl
    · simp [hwTriples, hwFirstModes]

/-- In the hardware phase, `_select_encoder` picks the current encoder. -/
lemma selectEncoder_phaseA {enabled : List EncoderType}
    {cpu_fallback : Bool} {ts : TaskState} {done : List EncoderType}
    {e : EncoderType} {rest : List EncoderType}
    (henab : enabled = done ++ e :: rest) (hnd : enabled.Nodup)
    (htrE : ts.tried_encoders = done)
    (hfull : ∀ x ∈ done, ts.tried_modes x = ModeSet.full) :
    selectEncoder enabled cpu_fallback ts = some e := by
  subst henab
  have hed : e ∉ done := by
    intro hmem
    have hdisj := (List.nodup_append.mp hnd).2.2
    exact hdisj hmem (List.mem_cons_self e rest)
  have h1 : done.filter (fun x =>
      ! (decide (x ∈ ts.tried_encoders)
          && decide (3 ≤ (ts.tried_modes x).size))) = [] := by
    rw [List.filter_eq_nil]
    intro x hx
    rw [htrE]
    simp [hx, hfull x hx, ModeSet.full, ModeSet.size]
  have h2 : decide (e ∈ ts.tried_encoders) = false := by
    rw [htrE]
    exact decide_eq_false hed
  simp only [selectEncoder, List.filter_append, h1, List.nil_append,
    List.filter_cons, h2, Bool.false_and, Bool.not_false, if_true]

/-- Once every enabled encoder is marked tried with all modes exhausted,
`_select_encoder` falls through to the CPU test. -/
lemma selectEncoder_allDone {enabled : List EncoderType}
    {cpu_fallback : Bool} {ts : TaskState}
    (hsub : ∀ x ∈ enabled, x ∈ ts.tried_encoders)
    (hfull : ∀ x ∈ enabled, ts.tried_modes x = ModeSet.full) :
    selectEncoder enabled cpu_fallback ts
      = if cpu_fallback && ! decide (EncoderType.cpu ∈ ts.tried_encoders)
        then some EncoderType.cpu else none := by
  have h1 : enabled.filter (fun x =>
      ! (decide (x ∈ ts.tried_encoders)
          && decide (3 ≤ (ts.tried_modes x).size))) = [] := by
    rw [List.filter_eq_nil]
    intro x hx
    simp [hsub x hx, hfull x hx, ModeSet.full, ModeSet.size]
  simp only [selectEncoder, h1]

/-- Core of C1: from any state satisfying the shape invariant, the attempt
final history of the loop extends to exactly the claimed enumeration order. -/
lemma schedLoop_hist_extends
    (oracle : EncoderType → DecodeMode → EncodeOutcome)
    (enabled : List EncoderType) (cpu_fallback : Bool)
    (hnd : enabled.Nodup) (hcpu : EncoderType.cpu ∉ enabled) :
    ∀ fuel ts hist evs, SchedInv enabled cpu_fallback ts hist →
      ∃ t, (schedLoop oracle enabled cpu_fallback fuel ts hist evs).hist ++ t
        = specOrder enabled cpu_fallback := by
  intro fuel
  induction fuel with
  | zero =>
    intro ts hist evs hinv
    simpa [schedLoop] using hinv.hist_extends
  | succ n ih =>
    intro ts hist evs hinv
    rcases hinv with
        ⟨done, e, rest, m, henab, hm, htrE, hfull, hme, hother, hhist⟩
      | ⟨hcf, m, hm, htrE, hfull, hcpuM, hhist⟩
      | ⟨hcf, htrE, hfull, hhist⟩
      | ⟨hcf, htrE, hfull, hhist⟩
    · -- phase A: walking hardware encoder `e` with `m` modes tried
      subst henab
      have hed : e ∉ done := by
        intro hmem
        exact (List.nodup_append.mp hnd).2.2 hmem (List.mem_cons_self e rest)
      have hecpu : e ≠ EncoderType.cpu := by
        intro h
        subst h
        exact hcpu (List.mem_append_right _ (List.mem_cons_self _ _))
      have hsel : selectEncoder (done ++ e :: rest) cpu_fallback ts = some e :=
        selectEncoder_phaseA rfl hnd htrE hfull
      simp only [schedLoop, hsel]
      rcases m with _ | _ | _ | _ | m
      · -- m = 0: attempt (e, HW_DECODE)
        have hnext : nextDecodeMode e ts = some DecodeMode.hw_decode := by
          simp [nextDecodeMode, hme, hecpu, modeProg]
        simp only [hnext]
        cases horc : oracle e DecodeMode.hw_decode with
        | ret r =>
          by_cases hs : r.success
          · simp only [if_pos hs]
            refine ⟨hwRestModes e 1 ++ (hwTriples rest
              ++ (if cpu_fallback then cpuPairs else [])), ?_⟩
            rw [hhist]
            simpa [hwFirstModes, hwRestModes, List.append_assoc]
              using specOrder_decompA done e rest 1 cpu_fallback
          · simp only [if_neg hs]
            refine ih _ _ _ (Or.inl ⟨done, e, rest, 1, rfl, by omega, htrE,
              ?_, ?_, ?_, ?_⟩)
            · intro x hx
              have hxe : x ≠ e := fun hh => hed (hh ▸ hx)
              simp [hxe, hfull x hx]
            · simp [hme, modeProg, ModeSet.insert]
            · intro x hx1 hx2
              simp [hx2, hother x hx1 hx2]
            · rw [hhist]; simp [hwFirstModes]
        | exc s2 =>
          refine ih _ _ _ (Or.inl ⟨done, e, rest, 1, rfl, by omega, htrE,
            ?_, ?_, ?_, ?_⟩)
          · intro x hx
            have hxe : x ≠ e := fun hh => hed (hh ▸ hx)
            simp [hxe, hfull x hx]
          · simp [hme, modeProg, ModeSet.insert]
          · intro x hx1 hx2
            simp [hx2, hother x hx1 hx2]
          · rw [hhist]; simp [hwFirstModes]
      · -- m = 1: attempt (e, SW_DECODE_LIMITED)
        have hnext : nextDecodeMode e ts = some DecodeMode.sw_decode_limited := by
          simp [nextDecodeMode, hme, hecpu, modeProg]
        simp only [hnext]
        cases horc : oracle e DecodeMode.sw_decode_limited with
        | ret r =>
          by_cases hs : r.success
          · simp only [if_pos hs]
            refine ⟨hwRestModes e 2 ++ (hwTriples rest
              ++ (if cpu_fallback then cpuPairs else [])), ?_⟩
            rw [hhist]
            simpa [hwFirstModes, hwRestModes, List.append_assoc]
              using specOrder_decompA done e rest 2 cpu_fallback
          · simp only [if_neg hs]
            refine ih _ _ _ (Or.inl ⟨done, e, rest, 2, rfl, by omega, htrE,
              ?_, ?_, ?_, ?_⟩)
            · intro x hx
              have hxe : x ≠ e := fun hh => hed (hh ▸ hx)
              simp [hxe, hfull x hx]
            · simp [hme, modeProg, ModeSet.insert]
            · intro x hx1 hx2
              simp [hx2, hother x hx1 hx2]
            · rw [hhist]; simp [hwFirstModes]
        | exc s2 =>
          refine ih _ _ _ (Or.inl ⟨done, e, rest, 2, rfl, by omega, htrE,
            ?_, ?_, ?_, ?_⟩)
          · intro x hx
            have hxe : x ≠ e := fun hh => hed (hh ▸ hx)
            simp [hxe, hfull x hx]
          · simp [hme, modeProg, ModeSet.insert]
          · intro x hx1 hx2
            simp [hx2, hother x hx1 hx2]
          · rw [hhist]; simp [hwFirstModes]
      · -- m = 2: attempt (e, SW_DECODE)
        have hnext : nextDecodeMode e ts = some DecodeMode.sw_decode := by
          simp [nextDecodeMode, hme, hecpu, modeProg]
        simp only [hnext]
        cases horc : oracle e DecodeMode.sw_decode with
        | ret r =>
          by_cases hs : r.success
          · simp only [if_pos hs]
            refine ⟨hwRestModes e 3 ++ (hwTriples rest
              ++ (if cpu_fallback then cpuPairs else [])), ?_⟩
            rw [hhist]
            simpa [hwFirstModes, hwRestModes, List.append_assoc]
              using specOrder_decompA done e rest 3 cpu_fallback
          · simp only [if_neg hs]
            refine ih _ _ _ (Or.inl ⟨done, e, rest, 3, rfl, by omega, htrE,
              ?_, ?_, ?_, ?_⟩)
            · intro x hx
              have hxe : x ≠ e := fun hh => hed (hh ▸ hx)
              simp [hxe, hfull x hx]
            · simp [hme, modeProg, ModeSet.insert, ModeSet.full]
            · intro x hx1 hx2
              simp [hx2, hother x hx1 hx2]
            · rw [hhist]; simp [hwFirstModes]
        | exc s2 =>
          refine ih _ _ _ (Or.inl ⟨done, e, rest, 3, rfl, by omega, htrE,
            ?_, ?_, ?_, ?_⟩)
          · intro x hx
            have hxe : x ≠ e := fun hh => hed (hh ▸ hx)
            simp [hxe, hfull x hx]
          · simp [hme, modeProg, ModeSet.insert, ModeSet.full]
          · intro x hx1 hx2
            simp [hx2, hother x hx1 hx2]
          · rw [hhist]; simp [hwFirstModes]
      · -- m = 3: encoder exhausted, mark it and continue
        have hnext : nextDecodeMode e ts = none := by
          simp [nextDecodeMode, hme, hecpu, modeProg, ModeSet.full]
        simp only [hnext]
        have hmark : markTried ts.tried_encoders e = done ++ [e] := by
          rw [htrE]; simp [markTried, hed]
        cases rest with
        | nil =>
          cases cpu_fallback with
          | true =>
            refine ih _ _ _ (Or.inr (Or.inl ⟨rfl, 0, by omega, ?_, ?_, ?_, ?_⟩))
            · simpa using hmark
            · intro x hx
              rcases List.mem_append.mp hx with hx | hx
              · exact hfull x hx
              · simp at hx
                subst hx
                exact hme
            · have h1 : EncoderType.cpu ∉ done := fun hh =>
                hcpu (List.mem_append_left _ hh)
              have h2 : EncoderType.cpu ≠ e := fun hh =>
                hcpu (hh ▸ List.mem_append_right _ (List.mem_cons_self _ _))
              simpa [cpuProg] using hother EncoderType.cpu h1 h2
            · rw [hhist, hwTriples_append]
              simp [hwTriples, hwFirstModes, cpuFirstModes]
          | false =>
            refine ih _ _ _ (Or.inr (Or.inr (Or.inr ⟨rfl, ?_, ?_, ?_⟩)))
            · simpa using hmark
            · intro x hx
              rcases List.mem_append.mp hx with hx | hx
              · exact hfull x hx
              · simp at hx
                subst hx
                exact hme
            · rw [hhist, hwTriples_append]
              simp [hwTriples, hwFirstModes]
        | cons r rest2 =>
          have hnd2 := List.nodup_append.mp hnd
          have hre : e ≠ r := by
            have := List.nodup_cons.mp hnd2.2.1
            intro hh
            exact this.1 (hh ▸ List.mem_cons_self r rest2)
          have hrdone : r ∉ done := fun hh =>
            hnd2.2.2 hh (List.mem_cons_of_mem _ (List.mem_cons_self _ _))
          refine ih _ _ _ (Or.inl ⟨done ++ [e], r, rest2, 0, by simp,
            by omega, ?_, ?_, ?_, ?_, ?_⟩)
          · exact hmark
          · intro x hx
            rcases List.mem_append.mp hx with hx | hx
            · exact hfull x hx
            · simp at hx
              subst hx
              exact hme
          · simpa [modeProg] using hother r hrdone (fun hh => hre hh.symm)
          · intro x hx1 hx2
            have hx3 : x ∉ done := fun hh => hx1 (List.mem_append_left _ hh)
            have hx4 : x ≠ e := fun hh =>
              hx1 (hh ▸ List.mem_append_right _ (List.mem_cons_self _ _))
            exact hother x hx3 hx4
          · rw [hhist, hwTriples_append]
            simp [hwTriples, hwFirstModes]
      · -- m ≥ 4 is impossible: the mode set has only three members
        exact absurd hm (by omega)
    · -- phase B: walking the CPU fallback with `m` modes tried
      subst hcf
      have hsub : ∀ x ∈ enabled, x ∈ ts.tried_encoders := by
        intro x hx; rw [htrE]; exact hx
      have hcpuTried : decide (EncoderType.cpu ∈ ts.tried_encoders) = false := by
        rw [htrE]; exact decide_eq_false hcpu
      have hsel : selectEncoder enabled true ts = some EncoderType.cpu := by
        rw [selectEncoder_allDone hsub hfull]
        simp [hcpuTried]
      simp only [schedLoop, hsel]
      rcases m with _ | _ | m
      · -- m = 0: attempt (CPU, SW_DECODE_LIMITED)
        have hnext : nextDecodeMode EncoderType.cpu ts
            = some DecodeMode.sw_decode_limited := by
          simp [nextDecodeMode, hcpuM, cpuProg]
        simp only [hnext]
        cases horc : oracle EncoderType.cpu DecodeMode.sw_decode_limited with
        | ret r =>
          by_cases hs : r.success
          · simp only [if_pos hs]
            refine ⟨cpuRestModes 1, ?_⟩
            rw [hhist]
            simpa [cpuFirstModes, List.append_assoc]
              using specOrder_decompB enabled 1
          · simp only [if_neg hs]
            refine ih _ _ _ (Or.inr (Or.inl ⟨rfl, 1, by omega, htrE, ?_, ?_,
              ?_⟩))
            · intro x hx
              have hxc : x ≠ EncoderType.cpu := fun hh => hcpu (hh ▸ hx)
              simp [hxc, hfull x hx]
            · simp [hcpuM, cpuProg, ModeSet.insert]
            · rw [hhist]; simp [cpuFirstModes]
        | exc s2 =>
          refine ih _ _ _ (Or.inr (Or.inl ⟨rfl, 1, by omega, htrE, ?_, ?_,
            ?_⟩))
          · intro x hx
            have hxc : x ≠ EncoderType.cpu := fun hh => hcpu (hh ▸ hx)
            simp [hxc, hfull x hx]
          · simp [hcpuM, cpuProg, ModeSet.insert]
          · rw [hhist]; simp [cpuFirstModes]
      · -- m = 1: attempt (CPU, SW_DECODE)
        have hnext : nextDecodeMode EncoderType.cpu ts
            = some DecodeMode.sw_decode := by
          simp [nextDecodeMode, hcpuM, cpuProg]
        simp only [hnext]
        cases horc : oracle EncoderType.cpu DecodeMode.sw_decode with
        | ret r =>
          by_cases hs : r.success
          · simp only [if_pos hs]
            refine ⟨cpuRestModes 2, ?_⟩
            rw [hhist]
            simpa [cpuFirstModes, cpuPairs, List.append_assoc]
              using specOrder_decompB enabled 2
          · simp only [if_neg hs]
            refine ih _ _ _ (Or.inr (Or.inl ⟨rfl, 2, by omega, htrE, ?_, ?_,
              ?_⟩))
            · intro x hx
              have hxc : x ≠ EncoderType.cpu := fun hh => hcpu (hh ▸ hx)
              simp [hxc, hfull x hx]
            · simp [hcpuM, cpuProg, ModeSet.insert]
            · rw [hhist]; simp [cpuFirstModes, cpuPairs]
        | exc s2 =>
          refine ih _ _ _ (Or.inr (Or.inl ⟨rfl, 2, by omega, htrE, ?_, ?_,
            ?_⟩))
          · intro x hx
            have hxc : x ≠ EncoderType.cpu := fun hh => hcpu (hh ▸ hx)
            simp [hxc, hfull x hx]
          · simp [hcpuM, cpuProg, ModeSet.insert]
          · rw [hhist]; simp [cpuFirstModes, cpuPairs]
      · -- m = 2: CPU exhausted, mark it
        obtain rfl : m = 0 := by omega
        have hnext : nextDecodeMode EncoderType.cpu ts = none := by
          simp [nextDecodeMode, hcpuM, cpuProg]
        simp only [hnext]
        refine ih _ _ _ (Or.inr (Or.inr (Or.inl ⟨rfl, ?_, hfull, ?_⟩)))
        · rw [htrE]; simp [markTried, hcpu]
        · rw [hhist]; simp [cpuFirstModes]
    · -- phase C: everything including CPU marked; loop idles then breaks
      subst hcf
      have hsub : ∀ x ∈ enabled, x ∈ ts.tried_encoders := by
        intro x hx; rw [htrE]; exact List.mem_append_left _ hx
      have hsel : selectEncoder enabled true ts = none := by
        rw [selectEncoder_allDone hsub hfull]
        have : decide (EncoderType.cpu ∈ ts.tried_encoders) = true := by
          rw [htrE]; simp
        simp [this]
      simp only [schedLoop, hsel]
      by_cases hrc : ts.retry_count < 3
      · simp only [if_pos hrc]
        exact ih _ _ _ (Or.inr (Or.inr (Or.inl ⟨rfl, htrE, hfull, hhist⟩)))
      · simp only [if_neg hrc]
        exact ⟨[], by simp [hhist, specOrder]⟩
    · -- phase D: all hardware encoders marked, no CPU fallback
      subst hcf
      have hsub : ∀ x ∈ enabled, x ∈ ts.tried_encoders := by
        intro x hx; rw [htrE]; exact hx
      have hsel : selectEncoder enabled false ts = none := by
        rw [selectEncoder_allDone hsub hfull]
        simp
      simp only [schedLoop, hsel]
      by_cases hrc : ts.retry_count < 3
      · simp only [if_pos hrc]
        exact ih _ _ _ (Or.inr (Or.inr (Or.inr ⟨rfl, htrE, hfull, hhist⟩)))
      · simp only [if_neg hrc]
        exact ⟨[], by simp [hhist, specOrder]⟩

/-- C1: for every task run sequentially (any encode function, any
duplicate-free hardware priority list), the scheduler enumerates candidate
(encoder, decode-mode) attempts in the fixed order `specOrder`: for each
enabled hardware encoder in priority order the pairs (e, HW_DECODE),
(e, SW_DECODE_LIMITED), (e, SW_DECODE), then — if CPU fallback is
enabled — (CPU, SW_DECODE_LIMITED), (CPU, SW_DECODE); the attempt history
is always an initial segment of that order, and (CPU, HW_DECODE) is never
proposed. -/
theorem scheduler_enumerates_in_spec_order
    (oracle : EncoderType → DecodeMode → EncodeOutcome)
    (enabled : List EncoderType) (cpu_fallback : Bool)
    (fp : String) (id : Nat)
    (hnd : enabled.Nodup) (hcpu : EncoderType.cpu ∉ enabled) :
    (∃ t, (schedule_task oracle enabled cpu_fallback fp id).hist ++ t
        = specOrder enabled cpu_fallback)
    ∧ (EncoderType.cpu, DecodeMode.hw_decode)
        ∉ (schedule_task oracle enabled cpu_fallback fp id).hist := by
  have h := schedLoop_hist_extends oracle enabled cpu_fallback hnd hcpu 10
    (TaskState.init fp id) [] [] (schedInv_init enabled cpu_fallback fp id)
  constructor
  · simpa [schedule_task] using h
  · obtain ⟨t, ht⟩ := h
    intro hmem
    apply cpu_hw_not_mem_specOrder enabled cpu_fallback hcpu
    rw [← ht]
    refine List.mem_append_left _ ?_
    simpa [schedule_task] using hmem

/-- Witness for C1: the enumeration property evaluated on a concrete
all-failing run with NVENC enabled and CPU fallback on. -/
theorem scheduler_enumerates_witness :
    (∃ t, (schedule_task failOracle [EncoderType.nvenc] true "g.mp4" 2).hist
        ++ t = specOrder [EncoderType.nvenc] true)
    ∧ (EncoderType.cpu, DecodeMode.hw_decode)
        ∉ (schedule_task failOracle [EncoderType.nvenc] true "g.mp4" 2).hist :=
  scheduler_enumerates_in_spec_order failOracle [EncoderType.nvenc] true
    "g.mp4" 2 (by decide) (by decide)

end SBVC
